import Mathlib

/-!
Shallow embedding of `generate.py` from svg-mail-merge, together with proofs
about its template-merge and data-source logic.

Modelling conventions:
* lxml `etree` elements become the mutual inductive types `Elem` / `ElemList`
  (tag, attribute list in document order, text, children); the child list is
  its own inductive type so that every tree traversal is structurally
  recursive and computes inside the kernel.  Namespace prefixes are elided:
  the namespaced SVG tags are modelled by their local names "tspan" and
  "rect".
* In-place mutation of a tree becomes pure tree transformation; the
  precomputed `findall` result of `replace` becomes the list of paths
  `templatePaths`, and mutating the element found at a path becomes
  `modifyAtM` at that path.
* Python exceptions become `Except String`: the `KeyError` of the class-type
  dispatch dictionary carries the unknown key, and the `TypeError` that
  lxml raises when `qr_xml.set(attr, e.get(attr))` receives None (the rect
  lacks the attribute) carries the attribute name.  `StopIteration` from an
  iterator becomes `Option`.
* The `while True` generator loop of `generate_page_svg_trees` is modelled
  with explicit fuel; the value `.ok none` means the loop has not reached its
  `break` within the given fuel.
-/

namespace SvgMerge

mutual
/-- An lxml element: tag, attributes (ordered), text, children. -/
inductive Elem where
  | mk (tag : String) (attrs : List (String × String)) (text : Option String)
      (children : ElemList)

/-- A list of sibling elements. -/
inductive ElemList where
  | nil
  | cons (head : Elem) (tail : ElemList)
end

def Elem.tag : Elem → String
  | .mk t _ _ _ => t

def Elem.attrs : Elem → List (String × String)
  | .mk _ a _ _ => a

def Elem.text : Elem → Option String
  | .mk _ _ x _ => x

def Elem.children : Elem → ElemList
  | .mk _ _ _ cs => cs

def ElemList.ofList : List Elem → ElemList
  | [] => .nil
  | e :: es => .cons e (ElemList.ofList es)

def ElemList.head? : ElemList → Option Elem
  | .nil => none
  | .cons e _ => some e

mutual
def elemDecEq : (a b : Elem) → Decidable (a = b)
  | .mk t1 a1 x1 c1, .mk t2 a2 x2 c2 =>
    if ht : t1 = t2 then
      if ha : a1 = a2 then
        if hx : x1 = x2 then
          match elemListDecEq c1 c2 with
          | isTrue hc => isTrue (by rw [ht, ha, hx, hc])
          | isFalse hc => isFalse (by intro h; injection h; contradiction)
        else isFalse (by intro h; injection h; contradiction)
      else isFalse (by intro h; injection h; contradiction)
    else isFalse (by intro h; injection h; contradiction)

def elemListDecEq : (a b : ElemList) → Decidable (a = b)
  | .nil, .nil => isTrue rfl
  | .nil, .cons _ _ => isFalse (fun h => ElemList.noConfusion h)
  | .cons _ _, .nil => isFalse (fun h => ElemList.noConfusion h)
  | .cons x xs, .cons y ys =>
    match elemDecEq x y, elemListDecEq xs ys with
    | isTrue h1, isTrue h2 => isTrue (by rw [h1, h2])
    | isFalse h1, _ => isFalse (by intro h; injection h; contradiction)
    | _, isFalse h2 => isFalse (by intro h; injection h; contradiction)
end

instance : DecidableEq Elem := elemDecEq

instance : DecidableEq ElemList := elemListDecEq

/-- `e.get(k)`: first binding of attribute `k`, if any. -/
def attrLookup : List (String × String) → String → Option String
  | [], _ => none
  | (k, v) :: rest, key => if k = key then some v else attrLookup rest key

/-- `e.set(k, v)` with a string value: replace the existing binding in
place, else append. -/
def attrSet : List (String × String) → String → String → List (String × String)
  | [], k, v => [(k, v)]
  | (k', v') :: rest, k, v =>
      if k' = k then (k, v) :: rest else (k', v') :: attrSet rest k v

def Elem.getAttr (e : Elem) (k : String) : Option String :=
  attrLookup e.attrs k

def Elem.setAttr : Elem → String → String → Elem
  | .mk t a x cs, k, v => .mk t (attrSet a k v) x cs

mutual
/-- All nodes of a tree in document (pre)order, the root included. -/
def allNodes : Elem → List Elem
  | .mk t a x cs => .mk t a x cs :: allNodesL cs

/-- All nodes of a forest in document order: each element followed by its
descendants, then its right siblings. -/
def allNodesL : ElemList → List Elem
  | .nil => []
  | .cons e es => allNodes e ++ allNodesL es
end

mutual
/-- Subtree at a path of child indices (`[]` is the root itself). -/
def subAt : Elem → List Nat → Option Elem
  | e, [] => some e
  | .mk _ _ _ cs, i :: p => subAtL cs i p

def subAtL : ElemList → Nat → List Nat → Option Elem
  | .nil, _, _ => none
  | .cons c _, 0, p => subAt c p
  | .cons _ cs, i + 1, p => subAtL cs i p
end

mutual
/-- The elements entered while descending along a path (root included,
endpoint included). -/
def pathNodes : Elem → List Nat → List Elem
  | e, [] => [e]
  | .mk t a x cs, i :: p => .mk t a x cs :: pathNodesL cs i p

def pathNodesL : ElemList → Nat → List Nat → List Elem
  | .nil, _, _ => []
  | .cons c _, 0, p => pathNodes c p
  | .cons _ cs, i + 1, p => pathNodesL cs i p
end

/-- `collections.namedtuple("MergeRow", "class_name class_type data")`. -/
structure MergeRow where
  class_name : String
  class_type : String
  data : String
deriving DecidableEq

/-- `MergeCsvReader` after `__init__`: the two header records have been
consumed, `rows` is what remains of the underlying csv iterator.  The csv
parser itself (stdlib `csv.reader`) is external; input is modelled at the
record level, one `List String` per record. -/
structure MergeCsvReader where
  class_names : List String
  class_types : List String
  rows : List (List String)
deriving DecidableEq

/-- `MergeCsvReader.__init__`: two unconditional `next(self._csv)` calls
consume the field-name record and the class-type record; `none` models the
`StopIteration` escaping the constructor when fewer than two records exist. -/
def MergeCsvReader.init : List (List String) → Option MergeCsvReader
  | ns :: ts :: rest => some ⟨ns, ts, rest⟩
  | _ => none

/-- The `zip(self._class_names, self._class_types, data_row)` comprehension of
`MergeCsvReader.__next__`: positional, truncating to the shortest input. -/
def zipMergeRows : List String → List String → List String → List MergeRow
  | n :: ns, t :: ts, d :: ds => ⟨n, t, d⟩ :: zipMergeRows ns ts ds
  | _, _, _ => []

/-- `MergeCsvReader.__next__`; `none` models `StopIteration`. -/
def MergeCsvReader.next : MergeCsvReader → Option (List MergeRow × MergeCsvReader)
  | ⟨_, _, []⟩ => none
  | ⟨ns, ts, r :: rest⟩ => some (zipMergeRows ns ts r, ⟨ns, ts, rest⟩)

/-- `_replace_tspan` restricted to a forest: set the text of every node that
is a `tspan` carrying `class=class_name` (the xpath `.//svg:tspan[@class=...]`
matches all such descendants), recursing everywhere. -/
def replaceTspanL (cn d : String) : ElemList → ElemList
  | .nil => .nil
  | .cons (.mk t a x cs) es =>
      .cons
        (.mk t a (if t = "tspan" ∧ attrLookup a "class" = some cn then some d else x)
          (replaceTspanL cn d cs))
        (replaceTspanL cn d es)

/-- `_replace_tspan(template, class_name, data)`: the xpath starts with `.//`,
so only proper descendants of `template` are candidates. -/
def _replace_tspan (template : Elem) (class_name data : String) : Elem :=
  .mk template.tag template.attrs template.text
    (replaceTspanL class_name data template.children)

/-- Modelled from the spec: `_create_qr_xml` delegates to the external
`pyqrcode` encoder, an opaque black box producing the parsed `<svg>` root of
the rendered QR symbol (with `omithw=True`, so without width and height
attributes).  The inner path stands in for the encoded modules. -/
def _create_qr_xml (data : String) : Elem :=
  .mk "svg" [("xmlns", "http://www.w3.org/2000/svg")] none
    (.cons (.mk "path" [("d", data)] none .nil) .nil)

/-- One step per attribute of the `for attr in [...]` loop of `_replace_qr`:
`qr_xml.set(attr, e.get(attr))`.  When the rect lacks the attribute,
`e.get` returns None and lxml raises TypeError; the error value records the
offending attribute. -/
def copyAttrsM (e : Elem) : List String → Elem → Except String Elem
  | [], q => .ok q
  | a :: as, q =>
    match e.getAttr a with
    | some v => copyAttrsM e as (q.setAttr a v)
    | none => .error ("TypeError: attribute value for " ++ a ++ " is None")

/-- The attribute-copy loop of `_replace_qr` for one matched rect `e`: copy
the rect attributes `class, x, y, width, height` onto the fresh copy of the
QR svg, failing with TypeError at the first missing one.  In the source the
attributes are set after the subtree is spliced in; since an uncaught
exception aborts the whole run, performing the copy before the splice is
observationally equivalent. -/
def copyRectAttrs (e q : Elem) : Except String Elem :=
  copyAttrsM e ["class", "x", "y", "width", "height"] q

/-- The replacement spliced in for one matched rect: the QR svg itself, or,
when the rect has a truthy (non-empty) `transform`, a wrapping `<g>` carrying
that transform (`etree.Element("g")` is created without a namespace); a
TypeError from the attribute copy propagates. -/
def qrReplacement (e qrT : Elem) : Except String Elem :=
  match copyRectAttrs e qrT with
  | .error m => .error m
  | .ok q =>
    match e.getAttr "transform" with
    | some t =>
        if t ≠ "" then .ok (.mk "g" [("transform", t)] none (.cons q .nil)) else .ok q
    | none => .ok q

/-- `_replace_qr` restricted to a forest: every `rect` carrying
`class=class_name` is replaced in place by its `qrReplacement`, in document
order, the first failure propagating; the matches are the ones of the
precomputed `findall` list, so the spliced subtree is not searched again. -/
def replaceQrL (cn : String) (qrT : Elem) : ElemList → Except String ElemList
  | .nil => .ok .nil
  | .cons (.mk t a x cs) es =>
      if t = "rect" ∧ attrLookup a "class" = some cn then
        match qrReplacement (.mk t a x cs) qrT with
        | .error m => .error m
        | .ok r =>
          match replaceQrL cn qrT es with
          | .error m => .error m
          | .ok es' => .ok (.cons r es')
      else
        match replaceQrL cn qrT cs with
        | .error m => .error m
        | .ok cs' =>
          match replaceQrL cn qrT es with
          | .error m => .error m
          | .ok es' => .ok (.cons (.mk t a x cs') es')

/-- `_replace_qr(template, class_name, data)`: `.//` again restricts the
search to proper descendants; a TypeError from the attribute copy
propagates. -/
def _replace_qr (template : Elem) (class_name data : String) : Except String Elem :=
  match replaceQrL class_name (_create_qr_xml data) template.children with
  | .error m => .error m
  | .ok cs' => .ok (.mk template.tag template.attrs template.text cs')

/-- The action of one `_replace_tspan` pass on a single node (text rewritten
when the node matches, children rewritten recursively); `replaceTspanL` maps
this function over a forest. -/
def tsMap (cn d : String) : Elem → Elem
  | .mk t a x cs =>
      .mk t a (if t = "tspan" ∧ attrLookup a "class" = some cn then some d else x)
        (replaceTspanL cn d cs)

/-- The action of one `_replace_qr` pass on a single unmatched node (children
rewritten recursively, errors propagated); equals `_replace_qr` on the tree
root, which `.//` never replaces. -/
def qrMapM (cn : String) (qrT : Elem) (e : Elem) : Except String Elem :=
  match replaceQrL cn qrT e.children with
  | .error m => .error m
  | .ok cs' => .ok (.mk e.tag e.attrs e.text cs')

/-- The spliced QR svg element carries the placeholder rect's class, x, y,
width and height attributes. -/
def qrCarries (q : Elem) (cn vx vy vw vh : String) : Prop :=
  q.tag = "svg" ∧ q.getAttr "class" = some cn ∧ q.getAttr "x" = some vx ∧
  q.getAttr "y" = some vy ∧ q.getAttr "width" = some vw ∧
  q.getAttr "height" = some vh

/-- The dispatch dictionary of `replace`:
`{"tspan": _replace_tspan, "qr": _replace_qr}[class_type]`;
`none` models the `KeyError` for any other key.  Both entries may in general
raise, so the common type is fallible; `_replace_tspan` itself never does. -/
def merge_funcs (class_type : String) :
    Option (Elem → String → String → Except String Elem) :=
  if class_type = "tspan" then
    some (fun template class_name data => .ok (_replace_tspan template class_name data))
  else if class_type = "qr" then some _replace_qr
  else none

/-- One `(class_name, class_type, data)` iteration of the inner loop of
`replace`; the `KeyError` carries the unknown key. -/
def fillCell (template : Elem) (c : MergeRow) : Except String Elem :=
  match merge_funcs c.class_type with
  | some f => f template c.class_name c.data
  | none => .error c.class_type

/-- The inner loop of `replace`: apply every cell of one data row to one
template block. -/
def fillRow : Elem → List MergeRow → Except String Elem
  | e, [] => .ok e
  | e, c :: cs =>
    match fillCell e c with
    | .error m => .error m
    | .ok e' => fillRow e' cs

mutual
/-- Apply a fallible transformation to the subtree at a path. -/
def modifyAtM (f : Elem → Except String Elem) : Elem → List Nat → Except String Elem
  | e, [] => f e
  | .mk t a x cs, i :: p =>
    match modifyListM f cs i p with
    | .error m => .error m
    | .ok cs' => .ok (.mk t a x cs')

def modifyListM (f : Elem → Except String Elem) :
    ElemList → Nat → List Nat → Except String ElemList
  | .nil, _, _ => .ok .nil
  | .cons c cs, 0, p =>
    match modifyAtM f c p with
    | .error m => .error m
    | .ok c' => .ok (.cons c' cs)
  | .cons c cs, i + 1, p =>
    match modifyListM f cs i p with
    | .error m => .error m
    | .ok cs' => .ok (.cons c cs')
end

/-- Paths (in document order) of all nodes of a forest carrying
`class="template"`, the `i`-th listed element having index `i`. -/
def templatePathsL : ElemList → Nat → List (List Nat)
  | .nil, _ => []
  | .cons (.mk _ a _ cs) es, i =>
      ((if attrLookup a "class" = some "template" then [([] : List Nat)] else []) ++
        templatePathsL cs 0).map (fun p => i :: p) ++
      templatePathsL es (i + 1)

/-- `root.findall(".//*[@class='template'])`, as paths: all proper
descendants of the root carrying the marker class, in document order. -/
def templatePaths (root : Elem) : List (List Nat) :=
  templatePathsL root.children 0

/-- The `for template in root.findall(...)` loop of `replace`, walking the
precomputed list of template-block paths and the remaining data rows:
returns the updated tree, the count of blocks filled, the `go_again` flag
(false exactly when `next(replacements)` raised `StopIteration`), and the
rows left unconsumed. -/
def fillAtPaths :
    Elem → List (List Nat) → List (List MergeRow) →
      Except String (Elem × Nat × Bool × List (List MergeRow))
  | root, [], rows => .ok (root, 0, true, rows)
  | root, _ :: _, [] => .ok (root, 0, false, [])
  | root, p :: ps, row :: rows =>
    match modifyAtM (fun e => fillRow e row) root p with
    | .error m => .error m
    | .ok root' =>
      match fillAtPaths root' ps rows with
      | .error m => .error m
      | .ok (r, c, g, rest) => .ok (r, c + 1, g, rest)

/-- `replace(root, replacements)`: the remaining-rows component makes the
iterator state explicit. -/
def replace (root : Elem) (rows : List (List MergeRow)) :
    Except String (Elem × Nat × Bool × List (List MergeRow)) :=
  fillAtPaths root (templatePaths root) rows

/-- `generate_page_svg_trees`: deep-copy the master tree, run `replace`,
yield the page when at least one block was filled, stop when `go_again` is
false.  Fuel bounds the number of loop iterations; `.ok none` means the loop
has not terminated within the fuel. -/
def generate_page_svg_trees (root : Elem) :
    Nat → List (List MergeRow) → Except String (Option (List Elem))
  | 0, _ => .ok none
  | fuel + 1, rows =>
    match replace root rows with
    | .error m => .error m
    | .ok (page, count, goAgain, rest) =>
      if goAgain then
        match generate_page_svg_trees root fuel rest with
        | .error m => .error m
        | .ok none => .ok none
        | .ok (some pages) => .ok (some (if count = 0 then pages else page :: pages))
      else
        .ok (some (if count = 0 then [] else [page]))

/-- ceil(r / b) over the naturals. -/
def ceilDiv (r b : Nat) : Nat := (r + b - 1) / b

/-- Outcome of the output-file precheck in `main`: exit status 1 with a
message on stderr, exit status 1 after an interactive refusal, or progress to
`process_csv` with the given overwrite flag.  The first two constructors are
produced before `process_csv` is invoked, so neither merging nor rendering
nor any write to the output path has happened by then. -/
inductive MainOutcome where
  | exit1 (stderrText : String)
  | promptAborted
  | run (overwrite : Bool)
deriving DecidableEq

/-- The `if not args.force and os.path.exists(...)` block of `main`. -/
def main_overwrite_check (force output_exists isatty : Bool) (answer : String)
    (output_pdf_file : String) : MainOutcome :=
  if !force && output_exists then
    if isatty then
      if answer.toLower = "y" ∨ answer.toLower = "yes" then .run true
      else .promptAborted
    else
      .exit1 ("Error: file " ++ output_pdf_file ++
        " already exists. Use --force to overwrite.\nAborted")
  else .run force

/-- A row whose class types the dispatch dictionary of `replace` accepts. -/
def RowOk (row : List MergeRow) : Prop :=
  ∀ c ∈ row, c.class_type = "tspan" ∨ c.class_type = "qr"

/-- A data sequence all of whose rows are dispatchable. -/
def DataOk (rows : List (List MergeRow)) : Prop :=
  ∀ r ∈ rows, RowOk r

instance (row : List MergeRow) : Decidable (RowOk row) :=
  List.decidableBAll _ row

instance (rows : List (List MergeRow)) : Decidable (DataOk rows) :=
  List.decidableBAll _ rows

/-- A node the tspan branch of the merge would rewrite for field `cn`. -/
def tspanMatchP (n : Elem) (cn : String) : Prop :=
  n.tag = "tspan" ∧ n.getAttr "class" = some cn

/-- A node the qr branch of the merge would replace for field `cn`. -/
def qrMatchP (n : Elem) (cn : String) : Prop :=
  n.tag = "rect" ∧ n.getAttr "class" = some cn

instance (n : Elem) (cn : String) : Decidable (tspanMatchP n cn) := by
  unfold tspanMatchP; infer_instance

instance (n : Elem) (cn : String) : Decidable (qrMatchP n cn) := by
  unfold qrMatchP; infer_instance

/-- A node one cell of a data row would modify. -/
def cellMatch (n : Elem) (c : MergeRow) : Prop :=
  (c.class_type = "tspan" ∧ tspanMatchP n c.class_name) ∨
  (c.class_type = "qr" ∧ qrMatchP n c.class_name)

instance (n : Elem) (c : MergeRow) : Decidable (cellMatch n c) := by
  unfold cellMatch; infer_instance

/-- The node, if the qr branch would replace it for field `cn`, carries the
four geometry attributes the splice copies; `class` is present by the match
itself.  A matched rect missing one makes the program raise TypeError. -/
def QrOkN (n : Elem) (cn : String) : Prop :=
  qrMatchP n cn →
    ((n.getAttr "x").isSome = true ∧ (n.getAttr "y").isSome = true ∧
     (n.getAttr "width").isSome = true ∧ (n.getAttr "height").isSome = true)

/-- Every image placeholder of the tree matched for field `cn` carries the
copied geometry attributes. -/
def QrOk (e : Elem) (cn : String) : Prop := ∀ n ∈ allNodes e, QrOkN n cn

/-- `QrOk` for a forest. -/
def QrOkL (cs : ElemList) (cn : String) : Prop := ∀ n ∈ allNodesL cs, QrOkN n cn

/-- Template well-formedness for one data row: every image placeholder the
qr cells of the row would replace carries the copied geometry attributes. -/
def RowTplOk (e : Elem) (row : List MergeRow) : Prop :=
  ∀ c ∈ row, c.class_type = "qr" → QrOk e c.class_name

/-- Template well-formedness for a whole data sequence. -/
def TplOk (root : Elem) (rows : List (List MergeRow)) : Prop :=
  ∀ r ∈ rows, ∀ c ∈ r, c.class_type = "qr" → QrOk root c.class_name

instance (n : Elem) (cn : String) : Decidable (QrOkN n cn) := by
  unfold QrOkN; infer_instance

instance (e : Elem) (cn : String) : Decidable (QrOk e cn) :=
  List.decidableBAll _ _

instance (cs : ElemList) (cn : String) : Decidable (QrOkL cs cn) :=
  List.decidableBAll _ _

instance (e : Elem) (row : List MergeRow) : Decidable (RowTplOk e row) :=
  List.decidableBAll _ _

instance (root : Elem) (rows : List (List MergeRow)) : Decidable (TplOk root rows) :=
  List.decidableBAll _ _

/-- Fixture: a master tree with exactly one template block holding one text
placeholder. -/
def exTemplateSvg : Elem :=
  .mk "svg" [] none (.ofList
    [.mk "g" [("class", "template")] none (.ofList
      [.mk "text" [] none (.ofList
        [.mk "tspan" [("class", "name")] (some "NAME") .nil])])])

/-- Fixture: two single-cell data rows. -/
def exRows2 : List (List MergeRow) :=
  [[⟨"name", "tspan", "Alice"⟩], [⟨"name", "tspan", "Bob"⟩]]

/-- Fixture: a tree with no template block at all. -/
def exNoBlockSvg : Elem :=
  .mk "svg" [] none (.ofList [.mk "text" [] (some "static page") .nil])

/-- Fixture: a text node holding one tspan placeholder. -/
def exText : Elem :=
  .mk "text" [] none (.ofList [.mk "tspan" [("class", "name")] (some "NAME") .nil])

/-- Fixture: an image placeholder rect with a non-empty transform. -/
def exRectT : Elem :=
  .mk "rect"
    [("class", "code"), ("x", "10"), ("y", "20"), ("width", "30"),
     ("height", "40"), ("transform", "rotate(45)")] none .nil

/-- Fixture: a tree whose image placeholder declares an empty transform
attribute. -/
def exRectEmptyTSvg : Elem :=
  .mk "svg" [] none (.ofList
    [.mk "rect"
      [("class", "code"), ("x", "1"), ("y", "2"), ("width", "3"),
       ("height", "4"), ("transform", "")] none .nil])

/-- Fixture: one template block holding a matched and an unmatched tspan. -/
def exTwoSpanSvg : Elem :=
  .mk "svg" [] none (.ofList
    [.mk "g" [("class", "template")] none (.ofList
      [.mk "tspan" [("class", "name")] (some "NAME") .nil,
       .mk "tspan" [("class", "other")] (some "KEEP") .nil])])

theorem fillCell_tspan (e : Elem) (c : MergeRow) (h : c.class_type = "tspan") :
    fillCell e c = .ok (_replace_tspan e c.class_name c.data) := by
  simp [fillCell, merge_funcs, h]

theorem fillCell_qr (e : Elem) (c : MergeRow) (h : c.class_type = "qr") :
    fillCell e c = _replace_qr e c.class_name c.data := by
  simp [fillCell, merge_funcs, h]

theorem fillCell_unknown (e : Elem) (c : MergeRow) (h1 : c.class_type ≠ "tspan")
    (h2 : c.class_type ≠ "qr") : fillCell e c = .error c.class_type := by
  simp [fillCell, merge_funcs, h1, h2]

theorem fillRow_cons_ok (e e' : Elem) (c : MergeRow) (cs : List MergeRow)
    (h : fillCell e c = .ok e') : fillRow e (c :: cs) = fillRow e' cs := by
  simp [fillRow, h]

theorem exists_of_isSome {o : Option String} (h : o.isSome = true) :
    ∃ v, o = some v := by
  cases o with
  | none => cases h
  | some v => exact ⟨v, rfl⟩

theorem attrLookup_attrSet_self :
    ∀ (l : List (String × String)) (k v : String),
      attrLookup (attrSet l k v) k = some v := by
  intro l k v
  induction l with
  | nil => simp [attrSet, attrLookup]
  | cons kv rest ih =>
    obtain ⟨k', v'⟩ := kv
    by_cases h : k' = k
    · simp [attrSet, h, attrLookup]
    · simp [attrSet, h, attrLookup, ih]

theorem attrLookup_attrSet_ne :
    ∀ (l : List (String × String)) (k v k' : String), k ≠ k' →
      attrLookup (attrSet l k v) k' = attrLookup l k' := by
  intro l k v k' hne
  induction l with
  | nil => simp [attrSet, attrLookup, hne]
  | cons kv rest ih =>
    obtain ⟨k0, v0⟩ := kv
    by_cases h : k0 = k
    · subst h
      simp [attrSet, attrLookup, hne]
    · simp [attrSet, h, attrLookup, ih]

theorem getAttr_setAttr_self (e : Elem) (k v : String) :
    (e.setAttr k v).getAttr k = some v := by
  cases e
  simp [Elem.setAttr, Elem.getAttr, Elem.attrs, attrLookup_attrSet_self]

theorem getAttr_setAttr_ne (e : Elem) (k v k' : String) (h : k ≠ k') :
    (e.setAttr k v).getAttr k' = e.getAttr k' := by
  cases e
  simp [Elem.setAttr, Elem.getAttr, Elem.attrs, attrLookup_attrSet_ne _ _ _ _ h]

theorem tag_setAttr (e : Elem) (k v : String) : (e.setAttr k v).tag = e.tag := by
  cases e
  simp [Elem.setAttr, Elem.tag]

theorem children_setAttr (e : Elem) (k v : String) :
    (e.setAttr k v).children = e.children := by
  cases e
  simp [Elem.setAttr, Elem.children]

theorem tspanMatchP_mk (t : String) (a : List (String × String)) (x : Option String)
    (cs : ElemList) (cn : String) :
    tspanMatchP (.mk t a x cs) cn ↔ (t = "tspan" ∧ attrLookup a "class" = some cn) := by
  simp [tspanMatchP, Elem.tag, Elem.getAttr, Elem.attrs]

theorem qrMatchP_mk (t : String) (a : List (String × String)) (x : Option String)
    (cs : ElemList) (cn : String) :
    qrMatchP (.mk t a x cs) cn ↔ (t = "rect" ∧ attrLookup a "class" = some cn) := by
  simp [qrMatchP, Elem.tag, Elem.getAttr, Elem.attrs]

theorem qrMatchP_of_tag_attrs (b0 b : Elem) (cn : String) (ht : b.tag = b0.tag)
    (ha : b.attrs = b0.attrs) : qrMatchP b cn ↔ qrMatchP b0 cn := by
  simp [qrMatchP, Elem.getAttr, ht, ha]

theorem qrokN_transfer (n n' : Elem) (cn : String) (ht : n'.tag = n.tag)
    (ha : n'.attrs = n.attrs) (h : QrOkN n cn) : QrOkN n' cn := by
  intro hm
  have h4 := h ((qrMatchP_of_tag_attrs n n' cn ht ha).mp hm)
  simpa only [Elem.getAttr, ha] using h4

theorem allNodes_self_mem (e : Elem) : e ∈ allNodes e := by
  cases e
  simp [allNodes]

theorem tsMap_tag (cn d : String) (b : Elem) : (tsMap cn d b).tag = b.tag := by
  cases b
  simp [tsMap, Elem.tag]

theorem tsMap_attrs (cn d : String) (b : Elem) : (tsMap cn d b).attrs = b.attrs := by
  cases b
  simp [tsMap, Elem.attrs]

theorem replaceTspanL_cons (cn d : String) (c : Elem) (es : ElemList) :
    replaceTspanL cn d (.cons c es) = .cons (tsMap cn d c) (replaceTspanL cn d es) := by
  cases c
  simp [replaceTspanL, tsMap]

theorem pathNodes_head_mem (c : Elem) (p : List Nat) : c ∈ pathNodes c p := by
  cases p with
  | nil => simp [pathNodes]
  | cons i q =>
    cases c with
    | mk t a x cs => simp [pathNodes]

theorem copyAttrsM_tag_children (e : Elem) :
    ∀ (as : List String) (q0 q : Elem), copyAttrsM e as q0 = .ok q →
      q.tag = q0.tag ∧ q.children = q0.children := by
  intro as
  induction as with
  | nil =>
    intro q0 q h
    simp only [copyAttrsM] at h
    injection h with h
    subst h
    exact ⟨rfl, rfl⟩
  | cons a as ih =>
    intro q0 q h
    simp only [copyAttrsM] at h
    cases hg : e.getAttr a with
    | none => rw [hg] at h; cases h
    | some v =>
      rw [hg] at h
      obtain ⟨h1, h2⟩ := ih (q0.setAttr a v) q h
      rw [tag_setAttr] at h1
      rw [children_setAttr] at h2
      exact ⟨h1, h2⟩

theorem copyRectAttrs_eq (e q : Elem) (cn vx vy vw vh : String)
    (hcl : e.getAttr "class" = some cn) (hx : e.getAttr "x" = some vx)
    (hy : e.getAttr "y" = some vy) (hw : e.getAttr "width" = some vw)
    (hh : e.getAttr "height" = some vh) :
    copyRectAttrs e q =
      .ok (((((q.setAttr "class" cn).setAttr "x" vx).setAttr "y" vy).setAttr
        "width" vw).setAttr "height" vh) := by
  simp [copyRectAttrs, copyAttrsM, hcl, hx, hy, hw, hh]

theorem qrCarries_chain (d cn vx vy vw vh : String) :
    qrCarries ((((((_create_qr_xml d).setAttr "class" cn).setAttr "x" vx).setAttr
      "y" vy).setAttr "width" vw).setAttr "height" vh) cn vx vy vw vh := by
  refine ⟨?_, ?_, ?_, ?_, ?_, ?_⟩
  · rw [tag_setAttr, tag_setAttr, tag_setAttr, tag_setAttr, tag_setAttr]
    rfl
  · rw [getAttr_setAttr_ne _ _ _ _ (by decide), getAttr_setAttr_ne _ _ _ _ (by decide),
      getAttr_setAttr_ne _ _ _ _ (by decide), getAttr_setAttr_ne _ _ _ _ (by decide),
      getAttr_setAttr_self]
  · rw [getAttr_setAttr_ne _ _ _ _ (by decide), getAttr_setAttr_ne _ _ _ _ (by decide),
      getAttr_setAttr_ne _ _ _ _ (by decide), getAttr_setAttr_self]
  · rw [getAttr_setAttr_ne _ _ _ _ (by decide), getAttr_setAttr_ne _ _ _ _ (by decide),
      getAttr_setAttr_self]
  · rw [getAttr_setAttr_ne _ _ _ _ (by decide), getAttr_setAttr_self]
  · rw [getAttr_setAttr_self]

theorem qrReplacement_ok (e qrT : Elem) (cn vx vy vw vh : String)
    (hcl : e.getAttr "class" = some cn) (hx : e.getAttr "x" = some vx)
    (hy : e.getAttr "y" = some vy) (hw : e.getAttr "width" = some vw)
    (hh : e.getAttr "height" = some vh) :
    ∃ r, qrReplacement e qrT = .ok r := by
  have hc := copyRectAttrs_eq e qrT cn vx vy vw vh hcl hx hy hw hh
  cases htr : e.getAttr "transform" with
  | none =>
    have h : qrReplacement e qrT
        = .ok (((((qrT.setAttr "class" cn).setAttr "x" vx).setAttr "y" vy).setAttr
            "width" vw).setAttr "height" vh) := by
      simp [qrReplacement, hc, htr]
    exact ⟨_, h⟩
  | some t =>
    by_cases ht : t = ""
    · have h : qrReplacement e qrT
          = .ok (((((qrT.setAttr "class" cn).setAttr "x" vx).setAttr "y" vy).setAttr
              "width" vw).setAttr "height" vh) := by
        simp [qrReplacement, hc, htr, ht]
      exact ⟨_, h⟩
    · have h : qrReplacement e qrT
          = .ok (.mk "g" [("transform", t)] none
              (.cons (((((qrT.setAttr "class" cn).setAttr "x" vx).setAttr "y"
                vy).setAttr "width" vw).setAttr "height" vh) .nil)) := by
        simp [qrReplacement, hc, htr, ht]
      exact ⟨_, h⟩

theorem qrReplacement_tags (e qrT r : Elem)
    (h : qrReplacement e qrT = .ok r)
    (h1 : qrT.tag ≠ "rect")
    (h2 : ∀ m ∈ allNodesL qrT.children, m.tag ≠ "rect") :
    ∀ n ∈ allNodes r, n.tag ≠ "rect" := by
  simp only [qrReplacement] at h
  cases hc : copyRectAttrs e qrT with
  | error m => rw [hc] at h; cases h
  | ok q =>
    rw [hc] at h
    obtain ⟨hqt, hqc⟩ := copyAttrsM_tag_children e _ qrT q hc
    have hq : ∀ n ∈ allNodes q, n.tag ≠ "rect" := by
      cases q with
      | mk qt qa qx qcs =>
        simp only [Elem.tag] at hqt
        simp only [Elem.children] at hqc
        intro n hn
        simp only [allNodes, List.mem_cons] at hn
        rcases hn with rfl | hn
        · simp only [Elem.tag]
          rw [hqt]
          exact h1
        · rw [hqc] at hn
          exact h2 n hn
    cases htr : e.getAttr "transform" with
    | none =>
      rw [htr] at h
      replace h : Except.ok q = Except.ok r := h
      injection h with h
      subst h
      exact hq
    | some t =>
      rw [htr] at h
      replace h : (if t ≠ "" then
            Except.ok (Elem.mk "g" [("transform", t)] none (.cons q .nil))
          else (Except.ok q : Except String Elem)) = Except.ok r := h
      by_cases ht : t = ""
      · rw [if_neg (fun hcon => hcon ht)] at h
        injection h with h
        subst h
        exact hq
      · rw [if_pos ht] at h
        injection h with h
        subst h
        intro n hn
        simp only [allNodes, allNodesL, List.mem_cons, List.append_nil] at hn
        rcases hn with rfl | hn
        · simp only [Elem.tag]
          have hg : ("g" : String) ≠ "rect" := by decide
          exact hg
        · exact hq n hn

theorem replaceTspanL_id (cn d : String) :
    ∀ es : ElemList, (∀ n ∈ allNodesL es, ¬ tspanMatchP n cn) →
      replaceTspanL cn d es = es
  | .nil, _ => by simp [replaceTspanL]
  | .cons (.mk t a x cs) es, h => by
    have hself : ¬ tspanMatchP (.mk t a x cs) cn :=
      h _ (by simp [allNodesL, allNodes])
    have hcs : ∀ n ∈ allNodesL cs, ¬ tspanMatchP n cn := fun n hn =>
      h n (by simp [allNodesL, allNodes, hn])
    have hes : ∀ n ∈ allNodesL es, ¬ tspanMatchP n cn := fun n hn =>
      h n (by simp [allNodesL, allNodes, hn])
    rw [tspanMatchP_mk] at hself
    simp only [replaceTspanL]
    rw [if_neg hself, replaceTspanL_id cn d cs hcs, replaceTspanL_id cn d es hes]

theorem tsMap_id (cn d : String) (e : Elem)
    (h : ∀ n ∈ allNodes e, ¬ tspanMatchP n cn) : tsMap cn d e = e := by
  cases e with
  | mk t a x cs =>
    have hself : ¬ tspanMatchP (.mk t a x cs) cn := h _ (by simp [allNodes])
    have hcs : ∀ n ∈ allNodesL cs, ¬ tspanMatchP n cn := fun n hn =>
      h n (by simp [allNodes, hn])
    rw [tspanMatchP_mk] at hself
    simp only [tsMap]
    rw [if_neg hself, replaceTspanL_id cn d cs hcs]

theorem replaceQrL_id (cn : String) (qrT : Elem) :
    ∀ es : ElemList, (∀ n ∈ allNodesL es, ¬ qrMatchP n cn) →
      replaceQrL cn qrT es = .ok es
  | .nil, _ => by simp [replaceQrL]
  | .cons (.mk t a x cs) es, h => by
    have hself : ¬ qrMatchP (.mk t a x cs) cn :=
      h _ (by simp [allNodesL, allNodes])
    have hcs : ∀ n ∈ allNodesL cs, ¬ qrMatchP n cn := fun n hn =>
      h n (by simp [allNodesL, allNodes, hn])
    have hes : ∀ n ∈ allNodesL es, ¬ qrMatchP n cn := fun n hn =>
      h n (by simp [allNodesL, allNodes, hn])
    rw [qrMatchP_mk] at hself
    have h1 := replaceQrL_id cn qrT cs hcs
    have h2 := replaceQrL_id cn qrT es hes
    simp [replaceQrL, hself, h1, h2]

mutual
theorem allNodes_tsMap (cn d : String) :
    ∀ e : Elem, allNodes (tsMap cn d e) = (allNodes e).map (tsMap cn d)
  | .mk t a x cs => by
    simp only [tsMap, allNodes, List.map_cons]
    rw [allNodesL_tsMap cn d cs]

theorem allNodesL_tsMap (cn d : String) :
    ∀ cs : ElemList, allNodesL (replaceTspanL cn d cs) = (allNodesL cs).map (tsMap cn d)
  | .nil => by simp [replaceTspanL, allNodesL]
  | .cons c cs => by
    rw [replaceTspanL_cons]
    simp only [allNodesL]
    rw [allNodes_tsMap cn d c, allNodesL_tsMap cn d cs, List.map_append]
end

theorem qrok_ts_list (cn0 d cn : String) (cs : ElemList) (h : QrOkL cs cn) :
    QrOkL (replaceTspanL cn0 d cs) cn := by
  intro n hn
  rw [allNodesL_tsMap] at hn
  obtain ⟨m, hm, rfl⟩ := List.mem_map.mp hn
  exact qrokN_transfer m (tsMap cn0 d m) cn (tsMap_tag _ _ m) (tsMap_attrs _ _ m) (h m hm)

theorem qrok_ts (cn0 d cn : String) (e : Elem) (h : QrOk e cn) :
    QrOk (_replace_tspan e cn0 d) cn := by
  cases e with
  | mk t a x cs =>
    intro n hn
    simp only [_replace_tspan, Elem.tag, Elem.attrs, Elem.text, Elem.children,
      allNodes, List.mem_cons] at hn
    rcases hn with rfl | hn
    · refine qrokN_transfer (.mk t a x cs) _ cn ?_ ?_ (h _ (by simp [allNodes]))
      · simp [Elem.tag]
      · simp [Elem.attrs]
    · have hcs : QrOkL cs cn := fun m hm => h m (by simp [allNodes, hm])
      exact qrok_ts_list cn0 d cn cs hcs n hn

theorem replaceQrL_tags (cn : String) (qrT : Elem)
    (h1 : qrT.tag ≠ "rect")
    (h2 : ∀ m ∈ allNodesL qrT.children, m.tag ≠ "rect") :
    ∀ (cs cs' : ElemList), replaceQrL cn qrT cs = .ok cs' →
      ∀ n' ∈ allNodesL cs',
        (∃ n ∈ allNodesL cs, n'.tag = n.tag ∧ n'.attrs = n.attrs) ∨ n'.tag ≠ "rect"
  | .nil, cs', h => by
    simp only [replaceQrL] at h
    injection h with h
    subst h
    intro n' hn'
    simp [allNodesL] at hn'
  | .cons (.mk t a x cs0) es, cs', h => by
    simp only [replaceQrL] at h
    by_cases hcnd : t = "rect" ∧ attrLookup a "class" = some cn
    · rw [if_pos hcnd] at h
      cases hrep : qrReplacement (.mk t a x cs0) qrT with
      | error m => rw [hrep] at h; cases h
      | ok r =>
        rw [hrep] at h
        cases hes : replaceQrL cn qrT es with
        | error m => rw [hes] at h; cases h
        | ok es' =>
          rw [hes] at h
          injection h with h
          subst h
          intro n' hn'
          simp only [allNodesL, List.mem_append] at hn'
          rcases hn' with hn' | hn'
          · exact Or.inr (qrReplacement_tags _ _ r hrep h1 h2 n' hn')
          · rcases replaceQrL_tags cn qrT h1 h2 es es' hes n' hn' with ⟨n, hn, hh⟩ | hh
            · exact Or.inl ⟨n, by simp [allNodesL, allNodes, hn], hh⟩
            · exact Or.inr hh
    · rw [if_neg hcnd] at h
      cases hc0 : replaceQrL cn qrT cs0 with
      | error m => rw [hc0] at h; cases h
      | ok cs0' =>
        rw [hc0] at h
        cases hes : replaceQrL cn qrT es with
        | error m => rw [hes] at h; cases h
        | ok es' =>
          rw [hes] at h
          injection h with h
          subst h
          intro n' hn'
          simp only [allNodesL, allNodes, List.mem_cons, List.mem_append] at hn'
          rcases hn' with (rfl | hn') | hn'
          · refine Or.inl ⟨.mk t a x cs0, by simp [allNodesL, allNodes], ?_, ?_⟩
            · simp [Elem.tag]
            · simp [Elem.attrs]
          · rcases replaceQrL_tags cn qrT h1 h2 cs0 cs0' hc0 n' hn' with ⟨n, hn, hh⟩ | hh
            · exact Or.inl ⟨n, by simp [allNodesL, allNodes, hn], hh⟩
            · exact Or.inr hh
          · rcases replaceQrL_tags cn qrT h1 h2 es es' hes n' hn' with ⟨n, hn, hh⟩ | hh
            · exact Or.inl ⟨n, by simp [allNodesL, allNodes, hn], hh⟩
            · exact Or.inr hh

theorem qrok_preserved_qr (cn : String) (qrT : Elem)
    (h1 : qrT.tag ≠ "rect")
    (h2 : ∀ m ∈ allNodesL qrT.children, m.tag ≠ "rect")
    (cs cs' : ElemList) (h : replaceQrL cn qrT cs = .ok cs') (cn' : String)
    (hok : QrOkL cs cn') : QrOkL cs' cn' := by
  intro n' hn'
  rcases replaceQrL_tags cn qrT h1 h2 cs cs' h n' hn' with ⟨n, hn, ht, ha⟩ | hrect
  · exact qrokN_transfer n n' cn' ht ha (hok n hn)
  · intro hm
    exact absurd hm.1 hrect

theorem create_qr_xml_tag (d : String) : (_create_qr_xml d).tag ≠ "rect" := by
  have h : ("svg" : String) ≠ "rect" := by decide
  exact fun hc => h hc

theorem create_qr_xml_children (d : String) :
    ∀ m ∈ allNodesL (_create_qr_xml d).children, m.tag ≠ "rect" := by
  intro m hm
  simp only [_create_qr_xml, Elem.children, allNodesL, allNodes,
    List.append_nil, List.mem_singleton] at hm
  subst hm
  have h : ("path" : String) ≠ "rect" := by decide
  exact fun hc => h hc

theorem replaceQrL_ok (cn : String) (qrT : Elem) :
    ∀ cs : ElemList, QrOkL cs cn → ∃ cs', replaceQrL cn qrT cs = .ok cs'
  | .nil, _ => ⟨.nil, by simp [replaceQrL]⟩
  | .cons (.mk t a x cs0) es, h => by
    have hcs0 : QrOkL cs0 cn := fun n hn => h n (by simp [allNodesL, allNodes, hn])
    have hes : QrOkL es cn := fun n hn => h n (by simp [allNodesL, allNodes, hn])
    obtain ⟨es', hes'⟩ := replaceQrL_ok cn qrT es hes
    by_cases hcnd : t = "rect" ∧ attrLookup a "class" = some cn
    · obtain ⟨rfl, hcl2⟩ := hcnd
      have hm : qrMatchP (.mk "rect" a x cs0) cn :=
        (qrMatchP_mk _ a x cs0 cn).mpr ⟨rfl, hcl2⟩
      have h4 := h _ (by simp [allNodesL, allNodes]) hm
      obtain ⟨vx, hvx⟩ := exists_of_isSome h4.1
      obtain ⟨vy, hvy⟩ := exists_of_isSome h4.2.1
      obtain ⟨vw, hvw⟩ := exists_of_isSome h4.2.2.1
      obtain ⟨vh, hvh⟩ := exists_of_isSome h4.2.2.2
      have hclass : (Elem.mk "rect" a x cs0).getAttr "class" = some cn := by
        simpa [Elem.getAttr, Elem.attrs] using hcl2
      obtain ⟨r, hr⟩ :=
        qrReplacement_ok (.mk "rect" a x cs0) qrT cn vx vy vw vh hclass hvx hvy hvw hvh
      exact ⟨.cons r es', by simp [replaceQrL, hcl2, hr, hes']⟩
    · obtain ⟨cs0', hcs0'⟩ := replaceQrL_ok cn qrT cs0 hcs0
      exact ⟨.cons (.mk t a x cs0') es', by simp [replaceQrL, hcnd, hcs0', hes']⟩

theorem _replace_qr_ok (e : Elem) (cn d : String) (h : QrOk e cn) :
    ∃ e', _replace_qr e cn d = .ok e' ∧ ∀ cn', QrOk e cn' → QrOk e' cn' := by
  cases e with
  | mk t a x cs =>
    have hcs : QrOkL cs cn := fun n hn => h n (by simp [allNodes, hn])
    obtain ⟨cs', hcs'⟩ := replaceQrL_ok cn (_create_qr_xml d) cs hcs
    refine ⟨.mk t a x cs', ?_, ?_⟩
    · simp [_replace_qr, Elem.children, Elem.tag, Elem.attrs, Elem.text, hcs']
    · intro cn' hok n' hn'
      simp only [allNodes, List.mem_cons] at hn'
      rcases hn' with rfl | hn'
      · exact qrokN_transfer (.mk t a x cs) _ cn' (by simp [Elem.tag])
          (by simp [Elem.attrs]) (hok _ (by simp [allNodes]))
      · exact qrok_preserved_qr cn (_create_qr_xml d) (create_qr_xml_tag d)
          (create_qr_xml_children d) cs cs' hcs' cn'
          (fun m hm => hok m (by simp [allNodes, hm])) n' hn'

theorem fillRow_ok_tpl :
    ∀ (row : List MergeRow) (e : Elem), RowOk row → RowTplOk e row →
      ∃ e', fillRow e row = .ok e' ∧ ∀ cn, QrOk e cn → QrOk e' cn := by
  intro row
  induction row with
  | nil => exact fun e _ _ => ⟨e, rfl, fun _ h => h⟩
  | cons c cs ih =>
    intro e hok hwf
    have hok' : RowOk cs := fun y hy => hok y (List.mem_cons_of_mem _ hy)
    rcases hok c (List.mem_cons_self _ _) with hct | hct
    · have hpres : ∀ cn, QrOk e cn → QrOk (_replace_tspan e c.class_name c.data) cn :=
        fun cn h => qrok_ts c.class_name c.data cn e h
      have hwf' : RowTplOk (_replace_tspan e c.class_name c.data) cs := fun c' hc' hq =>
        hpres c'.class_name (hwf c' (List.mem_cons_of_mem _ hc') hq)
      obtain ⟨e', he', hp'⟩ := ih (_replace_tspan e c.class_name c.data) hok' hwf'
      exact ⟨e', by rw [fillRow_cons_ok e _ c cs (fillCell_tspan e c hct)]; exact he',
        fun cn h => hp' cn (hpres cn h)⟩
    · obtain ⟨e1, he1, hpres⟩ := _replace_qr_ok e c.class_name c.data
        (hwf c (List.mem_cons_self _ _) hct)
      have hfc : fillCell e c = .ok e1 := by rw [fillCell_qr e c hct]; exact he1
      have hwf' : RowTplOk e1 cs := fun c' hc' hq =>
        hpres c'.class_name (hwf c' (List.mem_cons_of_mem _ hc') hq)
      obtain ⟨e', he', hp'⟩ := ih e1 hok' hwf'
      exact ⟨e', by rw [fillRow_cons_ok e e1 c cs hfc]; exact he',
        fun cn h => hp' cn (hpres cn h)⟩

mutual
theorem modifyAtM_fill_ok (row : List MergeRow) (hrow : RowOk row) :
    ∀ (e : Elem) (p : List Nat), RowTplOk e row →
      ∃ e', modifyAtM (fun y => fillRow y row) e p = .ok e' ∧
        ∀ cn, QrOk e cn → QrOk e' cn
  | e, [], hwf => by
    obtain ⟨e', he', hp⟩ := fillRow_ok_tpl row e hrow hwf
    exact ⟨e', by simp [modifyAtM, he'], hp⟩
  | .mk t a x cs, i :: p, hwf => by
    have hwfL : ∀ c ∈ row, c.class_type = "qr" → QrOkL cs c.class_name :=
      fun c hc hq n hn => hwf c hc hq n (by simp [allNodes, hn])
    obtain ⟨cs', hcs', hpL⟩ := modifyListM_fill_ok row hrow cs i p hwfL
    refine ⟨.mk t a x cs', by simp [modifyAtM, hcs'], ?_⟩
    intro cn hok n hn
    simp only [allNodes, List.mem_cons] at hn
    rcases hn with rfl | hn
    · exact qrokN_transfer (.mk t a x cs) _ cn (by simp [Elem.tag])
        (by simp [Elem.attrs]) (hok _ (by simp [allNodes]))
    · exact hpL cn (fun m hm => hok m (by simp [allNodes, hm])) n hn

theorem modifyListM_fill_ok (row : List MergeRow) (hrow : RowOk row) :
    ∀ (cs : ElemList) (i : Nat) (p : List Nat),
      (∀ c ∈ row, c.class_type = "qr" → QrOkL cs c.class_name) →
      ∃ cs', modifyListM (fun y => fillRow y row) cs i p = .ok cs' ∧
        ∀ cn, QrOkL cs cn → QrOkL cs' cn
  | .nil, _, _, _ => ⟨.nil, by simp [modifyListM], fun _ h => h⟩
  | .cons c cs, 0, p, hwf => by
    have hwfc : RowTplOk c row := fun c' hc' hq n hn =>
      hwf c' hc' hq n (by simp [allNodesL, hn])
    obtain ⟨c', hc', hp⟩ := modifyAtM_fill_ok row hrow c p hwfc
    refine ⟨.cons c' cs, by simp [modifyListM, hc'], ?_⟩
    intro cn hok n hn
    simp only [allNodesL, List.mem_append] at hn
    rcases hn with hn | hn
    · exact hp cn (fun m hm => hok m (by simp [allNodesL, hm])) n hn
    · exact hok n (by simp [allNodesL, hn])
  | .cons c cs, i + 1, p, hwf => by
    have hwfcs : ∀ c' ∈ row, c'.class_type = "qr" → QrOkL cs c'.class_name :=
      fun c' hc' hq n hn => hwf c' hc' hq n (by simp [allNodesL, hn])
    obtain ⟨cs', hcs', hp⟩ := modifyListM_fill_ok row hrow cs i p hwfcs
    refine ⟨.cons c cs', by simp [modifyListM, hcs'], ?_⟩
    intro cn hok n hn
    simp only [allNodesL, List.mem_append] at hn
    rcases hn with hn | hn
    · exact hok n (by simp [allNodesL, hn])
    · exact hp cn (fun m hm => hok m (by simp [allNodesL, hm])) n hn
end

theorem fillAtPaths_exhaust :
    ∀ (paths : List (List Nat)) (rows : List (List MergeRow)) (root : Elem),
      DataOk rows → TplOk root rows → rows.length < paths.length →
      ∃ root', fillAtPaths root paths rows = .ok (root', rows.length, false, []) := by
  intro paths
  induction paths with
  | nil => intro rows root _ _ h; simp at h
  | cons p ps ih =>
    intro rows root hd ht h
    cases rows with
    | nil => exact ⟨root, rfl⟩
    | cons row rows =>
      have hrow : RowOk row := hd row (List.mem_cons_self _ _)
      have hwf : RowTplOk root row := fun c hc hq =>
        ht row (List.mem_cons_self _ _) c hc hq
      obtain ⟨root1, h1, hpres⟩ := modifyAtM_fill_ok row hrow root p hwf
      have ht' : TplOk root1 rows := fun r hr c hc hq =>
        hpres c.class_name (ht r (List.mem_cons_of_mem _ hr) c hc hq)
      obtain ⟨root'', h2⟩ :=
        ih rows root1 (fun r hr => hd r (List.mem_cons_of_mem _ hr)) ht'
          (by simpa using Nat.lt_of_succ_lt_succ h)
      exact ⟨root'', by simp [fillAtPaths, h1, h2]⟩

theorem fillAtPaths_full :
    ∀ (paths : List (List Nat)) (rows : List (List MergeRow)) (root : Elem),
      DataOk rows → TplOk root rows → paths.length ≤ rows.length →
      ∃ root', fillAtPaths root paths rows =
        .ok (root', paths.length, true, rows.drop paths.length) := by
  intro paths
  induction paths with
  | nil => intro rows root _ _ _; exact ⟨root, rfl⟩
  | cons p ps ih =>
    intro rows root hd ht h
    cases rows with
    | nil => simp at h
    | cons row rows =>
      have hrow : RowOk row := hd row (List.mem_cons_self _ _)
      have hwf : RowTplOk root row := fun c hc hq =>
        ht row (List.mem_cons_self _ _) c hc hq
      obtain ⟨root1, h1, hpres⟩ := modifyAtM_fill_ok row hrow root p hwf
      have ht' : TplOk root1 rows := fun r hr c hc hq =>
        hpres c.class_name (ht r (List.mem_cons_of_mem _ hr) c hc hq)
      obtain ⟨root'', h2⟩ :=
        ih rows root1 (fun r hr => hd r (List.mem_cons_of_mem _ hr)) ht'
          (Nat.le_of_succ_le_succ h)
      exact ⟨root'', by simp [fillAtPaths, h1, h2]⟩

theorem ceilDiv_of_lt (n b : Nat) (hb : 0 < b) (h : n < b) :
    ceilDiv n b = if n = 0 then 0 else 1 := by
  rcases Nat.eq_zero_or_pos n with rfl | hn
  · simpa [ceilDiv] using Nat.div_eq_of_lt (by omega)
  · rw [if_neg (by omega)]
    exact Nat.div_eq_of_lt_le (by omega) (by omega)

theorem ceilDiv_of_le (n b : Nat) (hb : 0 < b) (h : b ≤ n) :
    ceilDiv n b = ceilDiv (n - b) b + 1 := by
  unfold ceilDiv
  rw [show n + b - 1 = (n - b + b - 1) + b by omega, Nat.add_div_right _ hb]

/-- Claim C4: one merge pass over a template with B blocks and N rows
remaining (the rows dispatchable and the image placeholders well-formed, so
no KeyError or TypeError aborts the pass) fills exactly min(B, N) blocks,
returns that count, leaves exactly the rows after the first min(B, N) for
the next pass, and returns go_again = false exactly when the source
signalled exhaustion during the pass, i.e. when N < B. -/
theorem replace_fills_min_blocks (root : Elem) (rows : List (List MergeRow))
    (hd : DataOk rows) (ht : TplOk root rows) :
    ∃ root', replace root rows =
      .ok (root', min (templatePaths root).length rows.length,
           decide ((templatePaths root).length ≤ rows.length),
           rows.drop (templatePaths root).length) := by
  rcases le_or_lt (templatePaths root).length rows.length with h | h
  · obtain ⟨root', hr⟩ := fillAtPaths_full (templatePaths root) rows root hd ht h
    exact ⟨root', by simp [replace, hr, Nat.min_eq_left h, decide_eq_true h]⟩
  · obtain ⟨root', hr⟩ := fillAtPaths_exhaust (templatePaths root) rows root hd ht h
    refine ⟨root', ?_⟩
    rw [replace, hr, Nat.min_eq_right (Nat.le_of_lt h),
      decide_eq_false (Nat.not_le.mpr h),
      List.drop_eq_nil_of_le (Nat.le_of_lt h)]

theorem replace_fills_min_blocks_witness :
    DataOk exRows2 ∧ TplOk exTemplateSvg exRows2 ∧
    ∃ root', replace exTemplateSvg exRows2 =
      .ok (root', min (templatePaths exTemplateSvg).length exRows2.length,
           decide ((templatePaths exTemplateSvg).length ≤ exRows2.length),
           exRows2.drop (templatePaths exTemplateSvg).length) :=
  ⟨by decide, by decide,
    replace_fills_min_blocks exTemplateSvg exRows2 (by decide) (by decide)⟩

/-- Claim C1: with B ≥ 1 template blocks and R rows that are dispatchable
against a template whose image placeholders are well-formed (no KeyError or
TypeError aborts the run), the page generator terminates (any fuel beyond R
suffices) and emits exactly ceil(R / B) pages; in particular R = 0 yields
zero pages and no trailing blank page is emitted when R is an exact multiple
of B, because a page is yielded only when the pass filled at least one
block. -/
theorem generate_page_svg_trees_page_count (fuel : Nat) :
    ∀ (root : Elem) (rows : List (List MergeRow)), DataOk rows →
      TplOk root rows → 1 ≤ (templatePaths root).length → rows.length < fuel →
      ∃ pages, generate_page_svg_trees root fuel rows = .ok (some pages) ∧
        pages.length = ceilDiv rows.length (templatePaths root).length := by
  induction fuel with
  | zero => intro root rows _ _ _ h; omega
  | succ f ih =>
    intro root rows hd ht hB hfuel
    rcases lt_or_le rows.length (templatePaths root).length with h | h
    · obtain ⟨root', hr⟩ := fillAtPaths_exhaust (templatePaths root) rows root hd ht h
      refine ⟨if rows.length = 0 then [] else [root'], ?_, ?_⟩
      · simp [generate_page_svg_trees, replace, hr]
      · rw [ceilDiv_of_lt _ _ (by omega) h]
        split <;> simp
    · obtain ⟨root', hr⟩ := fillAtPaths_full (templatePaths root) rows root hd ht h
      have hd' : DataOk (rows.drop (templatePaths root).length) :=
        fun r hrr => hd r (List.drop_subset _ _ hrr)
      have ht' : TplOk root (rows.drop (templatePaths root).length) :=
        fun r hrr c hc hq => ht r (List.drop_subset _ _ hrr) c hc hq
      have hlen : (rows.drop (templatePaths root).length).length < f := by
        rw [List.length_drop]; omega
      obtain ⟨pages, hp, hlenp⟩ :=
        ih root (rows.drop (templatePaths root).length) hd' ht' hB hlen
      have hB0 : (templatePaths root).length ≠ 0 := by omega
      have hB0' : templatePaths root ≠ [] := by
        intro hnil; rw [hnil] at hB0; simp at hB0
      refine ⟨root' :: pages, ?_, ?_⟩
      · simp [generate_page_svg_trees, replace, hr, hp, hB0, hB0']
      · rw [List.length_cons, ceilDiv_of_le _ _ (by omega) h]
        rw [List.length_drop] at hlenp
        omega

theorem generate_page_svg_trees_page_count_witness :
    DataOk exRows2 ∧ TplOk exTemplateSvg exRows2 ∧
    1 ≤ (templatePaths exTemplateSvg).length ∧ exRows2.length < 3 ∧
    ∃ pages, generate_page_svg_trees exTemplateSvg 3 exRows2 = .ok (some pages) ∧
      pages.length = ceilDiv exRows2.length (templatePaths exTemplateSvg).length :=
  ⟨by decide, by decide, by decide, by decide,
    generate_page_svg_trees_page_count 3 exTemplateSvg exRows2 (by decide) (by decide)
      (by decide) (by decide)⟩

/-- Claim C2 (code bug): a template with zero template blocks makes the
`while True` loop of `generate_page_svg_trees` spin forever: every pass
returns (count = 0, go_again = True), the loop only breaks on
go_again = False, so no fuel bound ever completes the loop.  The spec says
the repetition stops as soon as a pass fills zero blocks, so the generator
should terminate, consume nothing and emit nothing; the code instead never
terminates (though it indeed never consumes data and never yields a page). -/
theorem generate_page_svg_trees_zero_blocks_never_terminates (root : Elem)
    (h : templatePaths root = []) (fuel : Nat) (rows : List (List MergeRow)) :
    generate_page_svg_trees root fuel rows = .ok none := by
  induction fuel generalizing rows with
  | zero => rfl
  | succ f ih =>
    have hrepl : replace root rows = .ok (root, 0, true, rows) := by
      rw [replace, h]; rfl
    simp [generate_page_svg_trees, hrepl, ih rows]

theorem generate_page_svg_trees_zero_blocks_never_terminates_witness :
    templatePaths exNoBlockSvg = [] ∧
    generate_page_svg_trees exNoBlockSvg 9 exRows2 = .ok none :=
  ⟨by decide,
    generate_page_svg_trees_zero_blocks_never_terminates exNoBlockSvg (by decide) 9
      exRows2⟩

/-- Claim C9: `MergeCsvReader.__init__` unconditionally consumes the first
two records as the field-name row and the class-type row; with fewer than
two records the constructor itself fails (StopIteration, modelled by
`none`), and data rows start at the third record. -/
theorem mergeCsvReader_init_consumes_two :
    MergeCsvReader.init [] = none ∧
    (∀ r : List String, MergeCsvReader.init [r] = none) ∧
    (∀ (ns ts : List String) (rest : List (List String)),
      MergeCsvReader.init (ns :: ts :: rest) = some ⟨ns, ts, rest⟩) :=
  ⟨rfl, fun _ => rfl, fun _ _ _ => rfl⟩

/-- Claim C3 counterexample: a data record with three fields against a
two-field header is read without any error; `__next__` returns a two-cell
row, silently dropping the third field, so no malformed-input failure
occurs. -/
theorem mergeCsvReader_mismatch_counterexample :
    (MergeCsvReader.init [["a", "b"], ["tspan", "tspan"], ["1", "2", "3"]]).bind
        MergeCsvReader.next
      = some ([⟨"a", "tspan", "1"⟩, ⟨"b", "tspan", "2"⟩],
              ⟨["a", "b"], ["tspan", "tspan"], []⟩) := rfl

theorem zipMergeRows_length :
    ∀ (ns ts ds : List String),
      (zipMergeRows ns ts ds).length = min ns.length (min ts.length ds.length)
  | [], _, _ => by simp [zipMergeRows]
  | _ :: _, [], _ => by simp [zipMergeRows]
  | _ :: _, _ :: _, [] => by simp [zipMergeRows]
  | n :: ns, t :: ts, d :: ds => by
    have h := zipMergeRows_length ns ts ds
    simp [zipMergeRows, h]
    omega

/-- Claim C3 amended: inconsistent field counts between the header rows and
a data record are not detected at all: `__next__` always produces a row,
zipping positionally and truncating to the shortest of the field-name row,
the class-type row and the data record, silently dropping the extra
fields. -/
theorem mergeCsvReader_next_truncates (ns ts r : List String)
    (rest : List (List String)) :
    MergeCsvReader.next ⟨ns, ts, r :: rest⟩
      = some (zipMergeRows ns ts r, ⟨ns, ts, rest⟩) ∧
    (zipMergeRows ns ts r).length = min ns.length (min ts.length r.length) :=
  ⟨rfl, zipMergeRows_length ns ts r⟩

/-- Claim C10: the class-type dispatch of the merge step accepts exactly the
keys "tspan" and "qr": a cell with any other class type hits the dispatch
KeyError (carrying the key), so a fill can only succeed for those two kinds;
conversely a tspan cell always goes through, and a qr cell goes through on a
template whose matched image placeholders are well-formed (otherwise the
program raises TypeError instead).  A row containing a cell of any other
kind can never fill a block successfully. -/
theorem fillRow_rejects_unknown_class_type :
    (∀ (e : Elem) (c : MergeRow), c.class_type ≠ "tspan" → c.class_type ≠ "qr" →
        fillCell e c = .error c.class_type) ∧
    (∀ (e : Elem) (c : MergeRow), (∃ r, fillCell e c = .ok r) →
        c.class_type = "tspan" ∨ c.class_type = "qr") ∧
    (∀ (e : Elem) (c : MergeRow), c.class_type = "tspan" →
        ∃ r, fillCell e c = .ok r) ∧
    (∀ (e : Elem) (c : MergeRow), c.class_type = "qr" → QrOk e c.class_name →
        ∃ r, fillCell e c = .ok r) ∧
    (∀ (e : Elem) (row : List MergeRow) (c : MergeRow), c ∈ row →
        c.class_type ≠ "tspan" → c.class_type ≠ "qr" →
        ∃ m, fillRow e row = .error m) := by
  refine ⟨fillCell_unknown, ?_, ?_, ?_, ?_⟩
  · intro e c hr
    by_contra hcon
    push_neg at hcon
    obtain ⟨r, hr⟩ := hr
    rw [fillCell_unknown e c hcon.1 hcon.2] at hr
    cases hr
  · intro e c h
    exact ⟨_, fillCell_tspan e c h⟩
  · intro e c h hq
    obtain ⟨e', he', _⟩ := _replace_qr_ok e c.class_name c.data hq
    exact ⟨e', by rw [fillCell_qr e c h]; exact he'⟩
  · intro e row
    induction row generalizing e with
    | nil => intro c hc; cases hc
    | cons c0 cs ih =>
      intro c hc h1 h2
      rcases List.mem_cons.mp hc with rfl | hc'
      · exact ⟨c.class_type, by simp [fillRow, fillCell_unknown e c h1 h2]⟩
      · cases hfc : fillCell e c0 with
        | error m => exact ⟨m, by simp [fillRow, hfc]⟩
        | ok e' =>
          obtain ⟨m, hm⟩ := ih e' c hc' h1 h2
          exact ⟨m, by simp [fillRow, hfc, hm]⟩

theorem fillRow_rejects_unknown_class_type_witness :
    ((⟨"name", "image", "X"⟩ : MergeRow) ∈ [(⟨"name", "image", "X"⟩ : MergeRow)]) ∧
    (⟨"name", "image", "X"⟩ : MergeRow).class_type ≠ "tspan" ∧
    (⟨"name", "image", "X"⟩ : MergeRow).class_type ≠ "qr" ∧
    ∃ m, fillRow exText [⟨"name", "image", "X"⟩] = .error m :=
  ⟨by decide, by decide, by decide,
    fillRow_rejects_unknown_class_type.2.2.2.2 exText [⟨"name", "image", "X"⟩]
      ⟨"name", "image", "X"⟩ (by decide) (by decide) (by decide)⟩

/-- Claim C8: with the output path present, the overwrite flag absent and a
non-interactive run, `main` reaches the error branch: it produces exit
status 1 with an error text on stderr that mentions the existing path, and
never reaches `process_csv` (so nothing is merged or rendered and the
existing file is not touched). -/
theorem main_exit1_output_exists (answer output_pdf_file : String) :
    main_overwrite_check false true false answer output_pdf_file
      = .exit1 ("Error: file " ++ output_pdf_file ++
          " already exists. Use --force to overwrite.\nAborted") ∧
    (∃ pre post,
      ("Error: file " ++ output_pdf_file ++
          " already exists. Use --force to overwrite.\nAborted")
        = pre ++ output_pdf_file ++ post) ∧
    (∀ b : Bool, main_overwrite_check false true false answer output_pdf_file ≠ .run b) :=
  ⟨rfl,
   ⟨"Error: file ", " already exists. Use --force to overwrite.\nAborted", rfl⟩,
   fun _ h => MainOutcome.noConfusion h⟩

theorem replaceTspanL_text (cn d : String) :
    ∀ (es : ElemList) (n : Elem), n ∈ allNodesL (replaceTspanL cn d es) →
      n.tag = "tspan" → n.getAttr "class" = some cn → n.text = some d
  | .nil, n, h, _, _ => by simp [replaceTspanL, allNodesL] at h
  | .cons (.mk t a x cs) es, n, h, htag, hcl => by
    simp only [replaceTspanL, allNodesL, allNodes, List.mem_cons,
      List.mem_append] at h
    rcases h with (h | h) | h
    · subst h
      simp only [Elem.tag] at htag
      simp only [Elem.getAttr, Elem.attrs] at hcl
      simp only [Elem.text]
      rw [if_pos ⟨htag, hcl⟩]
    · exact replaceTspanL_text cn d cs n h htag hcl
    · exact replaceTspanL_text cn d es n h htag hcl

/-- Claim C5: every descendant text placeholder filled by `_replace_tspan`
ends with text content equal to the literal field value, with no escaping or
other transformation applied by the merger. -/
theorem replace_tspan_sets_literal_text (template : Elem) (cn d : String)
    (n : Elem) (hn : n ∈ allNodesL (_replace_tspan template cn d).children)
    (htag : n.tag = "tspan") (hcl : n.getAttr "class" = some cn) :
    n.text = some d := by
  cases template with
  | mk t a x cs =>
    simp only [_replace_tspan, Elem.children] at hn
    exact replaceTspanL_text cn d cs n hn htag hcl

theorem replace_tspan_sets_literal_text_witness :
    (Elem.mk "tspan" [("class", "name")] (some "Alice") .nil
        ∈ allNodesL (_replace_tspan exText "name" "Alice").children) ∧
    (Elem.mk "tspan" [("class", "name")] (some "Alice") .nil).tag = "tspan" ∧
    (Elem.mk "tspan" [("class", "name")] (some "Alice") .nil).getAttr "class"
        = some "name" ∧
    (Elem.mk "tspan" [("class", "name")] (some "Alice") .nil).text = some "Alice" :=
  ⟨by decide, by decide, by decide,
    replace_tspan_sets_literal_text exText "name" "Alice"
      (Elem.mk "tspan" [("class", "name")] (some "Alice") .nil)
      (by decide) (by decide) (by decide)⟩

/-- Claim C6 counterexample: the placeholder rect declares a transform
attribute (with the empty value), yet the spliced replacement is the QR svg
element itself and not a wrapping group: `_replace_qr` tests Python
truthiness of the attribute value, so `transform=""` is not wrapped. -/
theorem replace_qr_empty_transform_counterexample :
    ((exRectEmptyTSvg.children.head?).map (fun e => e.getAttr "transform")
        = some (some "")) ∧
    ((Except.toOption (_replace_qr exRectEmptyTSvg "code" "DATA")).bind
        (fun res => (res.children.head?).map Elem.tag) = some "svg") ∧
    "svg" ≠ "g" := by decide

/-- Claim C6 amended: a matched image placeholder rect carrying the five
copied attributes is replaced in place by the generated QR svg subtree; the
spliced svg element carries the rect's class, x, y, width and height
attributes, and when the rect declared a non-empty transform attribute the
svg is wrapped in a `g` element carrying that transform (an empty transform
value is treated as absent, Python truthiness).  The rest of the forest is
processed independently, the first failure propagating. -/
theorem replace_qr_splice_spec (e : Elem) (es : ElemList) (cn d vx vy vw vh : String)
    (htag : e.tag = "rect") (hcl : e.getAttr "class" = some cn)
    (hx : e.getAttr "x" = some vx) (hy : e.getAttr "y" = some vy)
    (hw : e.getAttr "width" = some vw) (hh : e.getAttr "height" = some vh) :
    ∃ r, qrReplacement e (_create_qr_xml d) = .ok r ∧
      (∀ es', replaceQrL cn (_create_qr_xml d) es = .ok es' →
        replaceQrL cn (_create_qr_xml d) (.cons e es) = .ok (.cons r es')) ∧
      (∀ m, replaceQrL cn (_create_qr_xml d) es = .error m →
        replaceQrL cn (_create_qr_xml d) (.cons e es) = .error m) ∧
      (∀ tr, e.getAttr "transform" = some tr → tr ≠ "" →
        r.tag = "g" ∧ r.getAttr "transform" = some tr ∧
        ∃ q, r.children = .cons q .nil ∧ qrCarries q cn vx vy vw vh) ∧
      ((e.getAttr "transform" = none ∨ e.getAttr "transform" = some "") →
        qrCarries r cn vx vy vw vh) := by
  have hcopy := copyRectAttrs_eq e (_create_qr_xml d) cn vx vy vw vh hcl hx hy hw hh
  have hcons : ∀ r, qrReplacement e (_create_qr_xml d) = .ok r →
      (∀ es', replaceQrL cn (_create_qr_xml d) es = .ok es' →
        replaceQrL cn (_create_qr_xml d) (.cons e es) = .ok (.cons r es')) ∧
      (∀ m, replaceQrL cn (_create_qr_xml d) es = .error m →
        replaceQrL cn (_create_qr_xml d) (.cons e es) = .error m) := by
    intro r hr
    cases e with
    | mk t0 a0 x0 cs0 =>
      simp only [Elem.tag] at htag
      simp only [Elem.getAttr, Elem.attrs] at hcl
      constructor
      · intro es' hes'
        simp only [replaceQrL]
        rw [if_pos ⟨htag, hcl⟩, hr, hes']
      · intro m hm
        simp only [replaceQrL]
        rw [if_pos ⟨htag, hcl⟩, hr, hm]
  cases htr : e.getAttr "transform" with
  | none =>
    have hr : qrReplacement e (_create_qr_xml d)
        = .ok ((((((_create_qr_xml d).setAttr "class" cn).setAttr "x" vx).setAttr
            "y" vy).setAttr "width" vw).setAttr "height" vh) := by
      simp [qrReplacement, hcopy, htr]
    obtain ⟨hc1, hc2⟩ := hcons _ hr
    refine ⟨_, hr, hc1, hc2, ?_, ?_⟩
    · intro tr htr' _
      exact Option.noConfusion htr'
    · intro _
      exact qrCarries_chain d cn vx vy vw vh
  | some t =>
    by_cases ht : t = ""
    · subst ht
      have hr : qrReplacement e (_create_qr_xml d)
          = .ok ((((((_create_qr_xml d).setAttr "class" cn).setAttr "x" vx).setAttr
              "y" vy).setAttr "width" vw).setAttr "height" vh) := by
        simp [qrReplacement, hcopy, htr]
      obtain ⟨hc1, hc2⟩ := hcons _ hr
      refine ⟨_, hr, hc1, hc2, ?_, ?_⟩
      · intro tr htr' hne
        injection htr' with h0
        exact absurd h0.symm hne
      · intro _
        exact qrCarries_chain d cn vx vy vw vh
    · have hr : qrReplacement e (_create_qr_xml d)
          = .ok (.mk "g" [("transform", t)] none
              (.cons ((((((_create_qr_xml d).setAttr "class" cn).setAttr "x"
                vx).setAttr "y" vy).setAttr "width" vw).setAttr "height" vh) .nil)) := by
        simp [qrReplacement, hcopy, htr, ht]
      obtain ⟨hc1, hc2⟩ := hcons _ hr
      refine ⟨_, hr, hc1, hc2, ?_, ?_⟩
      · intro tr htr' _
        injection htr' with h0
        subst h0
        refine ⟨by simp [Elem.tag], by simp [Elem.getAttr, Elem.attrs, attrLookup], ?_⟩
        exact ⟨((((((_create_qr_xml d).setAttr "class" cn).setAttr "x" vx).setAttr
            "y" vy).setAttr "width" vw).setAttr "height" vh),
          by simp [Elem.children], qrCarries_chain d cn vx vy vw vh⟩
      · intro hcase
        rcases hcase with hcase | hcase
        · exact Option.noConfusion hcase
        · injection hcase with h0
          exact absurd h0 ht

theorem replace_qr_splice_spec_witness :
    exRectT.tag = "rect" ∧ exRectT.getAttr "class" = some "code" ∧
    exRectT.getAttr "x" = some "10" ∧ exRectT.getAttr "y" = some "20" ∧
    exRectT.getAttr "width" = some "30" ∧ exRectT.getAttr "height" = some "40" ∧
    ∃ r, qrReplacement exRectT (_create_qr_xml "HELLO") = .ok r ∧
      (∀ es', replaceQrL "code" (_create_qr_xml "HELLO") .nil = .ok es' →
        replaceQrL "code" (_create_qr_xml "HELLO") (.cons exRectT .nil)
          = .ok (.cons r es')) ∧
      (∀ m, replaceQrL "code" (_create_qr_xml "HELLO") .nil = .error m →
        replaceQrL "code" (_create_qr_xml "HELLO") (.cons exRectT .nil)
          = .error m) ∧
      (∀ tr, exRectT.getAttr "transform" = some tr → tr ≠ "" →
        r.tag = "g" ∧ r.getAttr "transform" = some tr ∧
        ∃ q, r.children = .cons q .nil ∧ qrCarries q "code" "10" "20" "30" "40") ∧
      ((exRectT.getAttr "transform" = none ∨ exRectT.getAttr "transform" = some "") →
        qrCarries r "code" "10" "20" "30" "40") :=
  ⟨by decide, by decide, by decide, by decide, by decide, by decide,
    replace_qr_splice_spec exRectT .nil "code" "HELLO" "10" "20" "30" "40"
      (by decide) (by decide) (by decide) (by decide) (by decide) (by decide)⟩

theorem _replace_qr_eq_qrMapM (e : Elem) (cn d : String) :
    _replace_qr e cn d = qrMapM cn (_create_qr_xml d) e := rfl

mutual
theorem subAt_tsMap (cn d : String) :
    ∀ (e : Elem) (p : List Nat) (b : Elem), subAt e p = some b →
      subAt (tsMap cn d e) p = some (tsMap cn d b)
  | e, [], b, h => by
    simp only [subAt] at h
    rw [Option.some.injEq] at h
    subst h
    simp [subAt]
  | .mk t a x cs, i :: p, b, h => by
    simp only [subAt] at h
    simp only [tsMap, subAt]
    exact subAtL_tsMap cn d cs i p b h

theorem subAtL_tsMap (cn d : String) :
    ∀ (cs : ElemList) (i : Nat) (p : List Nat) (b : Elem), subAtL cs i p = some b →
      subAtL (replaceTspanL cn d cs) i p = some (tsMap cn d b)
  | .nil, _, _, b, h => by simp [subAtL] at h
  | .cons c cs, 0, p, b, h => by
    simp only [subAtL] at h
    rw [replaceTspanL_cons]
    simp only [subAtL]
    exact subAt_tsMap cn d c p b h
  | .cons c cs, i + 1, p, b, h => by
    simp only [subAtL] at h
    rw [replaceTspanL_cons]
    simp only [subAtL]
    exact subAtL_tsMap cn d cs i p b h
end

mutual
theorem pathNodes_tsMap (cn d : String) :
    ∀ (e : Elem) (p : List Nat),
      pathNodes (tsMap cn d e) p = (pathNodes e p).map (tsMap cn d)
  | e, [] => by simp [pathNodes]
  | .mk t a x cs, i :: p => by
    simp only [tsMap, pathNodes]
    rw [List.map_cons, pathNodesL_tsMap cn d cs i p]
    simp [tsMap]

theorem pathNodesL_tsMap (cn d : String) :
    ∀ (cs : ElemList) (i : Nat) (p : List Nat),
      pathNodesL (replaceTspanL cn d cs) i p = (pathNodesL cs i p).map (tsMap cn d)
  | .nil, _, _ => by simp [replaceTspanL, pathNodesL]
  | .cons c cs, 0, p => by
    rw [replaceTspanL_cons]
    simp only [pathNodesL]
    exact pathNodes_tsMap cn d c p
  | .cons c cs, i + 1, p => by
    rw [replaceTspanL_cons]
    simp only [pathNodesL]
    exact pathNodesL_tsMap cn d cs i p
end

mutual
theorem subAt_qrFill (cn : String) (qrT : Elem) :
    ∀ (e e' : Elem) (p : List Nat) (b : Elem),
      qrMapM cn qrT e = .ok e' → subAt e p = some b →
      (∀ n ∈ pathNodes e p, ¬ qrMatchP n cn) →
      (∀ n ∈ allNodes b, ¬ qrMatchP n cn) →
      subAt e' p = some b ∧
        (∀ n' ∈ pathNodes e' p, ∃ n ∈ pathNodes e p,
          n'.tag = n.tag ∧ n'.attrs = n.attrs)
  | e, e', [], b, hq, hs, hp, hb => by
    simp only [subAt] at hs
    rw [Option.some.injEq] at hs
    subst hs
    cases e with
    | mk t a x cs =>
      have hid : replaceQrL cn qrT cs = .ok cs :=
        replaceQrL_id cn qrT cs (fun n hn => hb n (by simp [allNodes, hn]))
      simp only [qrMapM, Elem.children, Elem.tag, Elem.attrs, Elem.text] at hq
      rw [hid] at hq
      injection hq with hq
      subst hq
      refine ⟨by simp [subAt], ?_⟩
      intro n' hn'
      simp only [pathNodes, List.mem_singleton] at hn'
      subst hn'
      exact ⟨.mk t a x cs, by simp [pathNodes], rfl, rfl⟩
  | .mk t a x cs, e', i :: p, b, hq, hs, hp, hb => by
    simp only [subAt] at hs
    simp only [qrMapM, Elem.children, Elem.tag, Elem.attrs, Elem.text] at hq
    cases hcs' : replaceQrL cn qrT cs with
    | error m => rw [hcs'] at hq; cases hq
    | ok cs' =>
      rw [hcs'] at hq
      injection hq with hq
      subst hq
      have hpL : ∀ n ∈ pathNodesL cs i p, ¬ qrMatchP n cn := fun n hn =>
        hp n (by simp [pathNodes, hn])
      obtain ⟨h1, h2⟩ := subAtL_qrFill cn qrT cs cs' i p b hcs' hs hpL hb
      refine ⟨by simp only [subAt]; exact h1, ?_⟩
      intro n' hn'
      simp only [pathNodes, List.mem_cons] at hn'
      rcases hn' with rfl | hn'
      · exact ⟨.mk t a x cs, by simp [pathNodes], by simp [Elem.tag],
          by simp [Elem.attrs]⟩
      · obtain ⟨n, hn, hh⟩ := h2 n' hn'
        exact ⟨n, by simp [pathNodes, hn], hh⟩

theorem subAtL_qrFill (cn : String) (qrT : Elem) :
    ∀ (cs cs' : ElemList) (i : Nat) (p : List Nat) (b : Elem),
      replaceQrL cn qrT cs = .ok cs' → subAtL cs i p = some b →
      (∀ n ∈ pathNodesL cs i p, ¬ qrMatchP n cn) →
      (∀ n ∈ allNodes b, ¬ qrMatchP n cn) →
      subAtL cs' i p = some b ∧
        (∀ n' ∈ pathNodesL cs' i p, ∃ n ∈ pathNodesL cs i p,
          n'.tag = n.tag ∧ n'.attrs = n.attrs)
  | .nil, cs', _, _, b, h, hs, _, _ => by simp [subAtL] at hs
  | .cons c cs, cs', 0, p, b, h, hs, hp, hb => by
    simp only [subAtL] at hs
    have hc : ¬ qrMatchP c cn := hp c (by
      simp only [pathNodesL]
      exact pathNodes_head_mem c p)
    cases c with
    | mk t a x cs0 =>
      rw [qrMatchP_mk] at hc
      simp only [replaceQrL] at h
      rw [if_neg hc] at h
      cases hc0 : replaceQrL cn qrT cs0 with
      | error m => rw [hc0] at h; cases h
      | ok cs0' =>
        rw [hc0] at h
        cases hes : replaceQrL cn qrT cs with
        | error m => rw [hes] at h; cases h
        | ok es' =>
          rw [hes] at h
          injection h with h
          subst h
          have hqm : qrMapM cn qrT (.mk t a x cs0) = .ok (.mk t a x cs0') := by
            simp [qrMapM, Elem.children, Elem.tag, Elem.attrs, Elem.text, hc0]
          have hpE : ∀ n ∈ pathNodes (Elem.mk t a x cs0) p, ¬ qrMatchP n cn :=
            fun n hn => hp n (by simp only [pathNodesL]; exact hn)
          obtain ⟨h1, h2⟩ :=
            subAt_qrFill cn qrT (.mk t a x cs0) (.mk t a x cs0') p b hqm hs hpE hb
          refine ⟨by simp only [subAtL]; exact h1, ?_⟩
          intro n' hn'
          simp only [pathNodesL] at hn' ⊢
          exact h2 n' hn'
  | .cons c cs, cs', i + 1, p, b, h, hs, hp, hb => by
    simp only [subAtL] at hs
    have hpT : ∀ n ∈ pathNodesL cs i p, ¬ qrMatchP n cn := fun n hn =>
      hp n (by simp only [pathNodesL]; exact hn)
    cases c with
    | mk t a x cs0 =>
      simp only [replaceQrL] at h
      by_cases hcnd : t = "rect" ∧ attrLookup a "class" = some cn
      · rw [if_pos hcnd] at h
        cases hrep : qrReplacement (.mk t a x cs0) qrT with
        | error m => rw [hrep] at h; cases h
        | ok r =>
          rw [hrep] at h
          cases hes : replaceQrL cn qrT cs with
          | error m => rw [hes] at h; cases h
          | ok es' =>
            rw [hes] at h
            injection h with h
            subst h
            obtain ⟨h1, h2⟩ := subAtL_qrFill cn qrT cs es' i p b hes hs hpT hb
            exact ⟨by simp only [subAtL]; exact h1,
              by simp only [pathNodesL]; exact h2⟩
      · rw [if_neg hcnd] at h
        cases hc0 : replaceQrL cn qrT cs0 with
        | error m => rw [hc0] at h; cases h
        | ok cs0' =>
          rw [hc0] at h
          cases hes : replaceQrL cn qrT cs with
          | error m => rw [hes] at h; cases h
          | ok es' =>
            rw [hes] at h
            injection h with h
            subst h
            obtain ⟨h1, h2⟩ := subAtL_qrFill cn qrT cs es' i p b hes hs hpT hb
            exact ⟨by simp only [subAtL]; exact h1,
              by simp only [pathNodesL]; exact h2⟩
end

theorem fillCell_preserves_sub (c : MergeRow) (t : Elem) (p : List Nat) (s : Elem)
    (hct : c.class_type = "tspan" ∨ c.class_type = "qr")
    (hwf : c.class_type = "qr" → QrOk t c.class_name)
    (hsub : subAt t p = some s)
    (hs : ∀ n ∈ allNodes s, ¬ cellMatch n c)
    (hsp : ∀ b ∈ pathNodes t p, ¬ (c.class_type = "qr" ∧ qrMatchP b c.class_name)) :
    ∃ t', fillCell t c = .ok t' ∧ subAt t' p = some s ∧
      (∀ n' ∈ pathNodes t' p, ∃ n ∈ pathNodes t p,
        n'.tag = n.tag ∧ n'.attrs = n.attrs) ∧
      (∀ cn, QrOk t cn → QrOk t' cn) := by
  rcases hct with hct | hct
  · have hsid : ∀ n ∈ allNodes s, ¬ tspanMatchP n c.class_name := fun n hn hm =>
      hs n hn (Or.inl ⟨hct, hm⟩)
    refine ⟨_replace_tspan t c.class_name c.data, fillCell_tspan t c hct, ?_, ?_, ?_⟩
    · cases p with
      | nil =>
        simp only [subAt] at hsub
        rw [Option.some.injEq] at hsub
        subst hsub
        cases t with
        | mk t0 a0 x0 cs0 =>
          have hcs : ∀ n ∈ allNodesL cs0, ¬ tspanMatchP n c.class_name := fun n hn =>
            hsid n (by simp [allNodes, hn])
          simp only [_replace_tspan, Elem.tag, Elem.attrs, Elem.text, Elem.children,
            subAt]
          rw [replaceTspanL_id _ _ cs0 hcs]
      | cons i q =>
        cases t with
        | mk t0 a0 x0 cs0 =>
          simp only [subAt] at hsub
          simp only [_replace_tspan, Elem.tag, Elem.attrs, Elem.text, Elem.children,
            subAt]
          rw [subAtL_tsMap _ _ cs0 i q s hsub, tsMap_id _ _ s hsid]
    · cases p with
      | nil =>
        intro n' hn'
        simp only [pathNodes, List.mem_cons, List.not_mem_nil, or_false] at hn'
        subst hn'
        refine ⟨t, pathNodes_head_mem t [], ?_, ?_⟩
        · cases t; simp [_replace_tspan, Elem.tag]
        · cases t; simp [_replace_tspan, Elem.attrs]
      | cons i q =>
        cases t with
        | mk t0 a0 x0 cs0 =>
          intro n' hn'
          simp only [_replace_tspan, Elem.tag, Elem.attrs, Elem.text, Elem.children,
            pathNodes, List.mem_cons] at hn'
          rcases hn' with hn' | hn'
          · subst hn'
            exact ⟨.mk t0 a0 x0 cs0, by simp [pathNodes],
              by simp [Elem.tag], by simp [Elem.attrs]⟩
          · rw [pathNodesL_tsMap] at hn'
            obtain ⟨n, hn, rfl⟩ := List.mem_map.mp hn'
            exact ⟨n, by simp [pathNodes, hn], tsMap_tag _ _ n, tsMap_attrs _ _ n⟩
    · intro cn h
      exact qrok_ts c.class_name c.data cn t h
  · have hq : ∀ b ∈ pathNodes t p, ¬ qrMatchP b c.class_name := fun b hb hm =>
      hsp b hb ⟨hct, hm⟩
    have hb : ∀ n ∈ allNodes s, ¬ qrMatchP n c.class_name := fun n hn hm =>
      hs n hn (Or.inr ⟨hct, hm⟩)
    obtain ⟨t', ht', hpres⟩ := _replace_qr_ok t c.class_name c.data (hwf hct)
    have hqm : qrMapM c.class_name (_create_qr_xml c.data) t = .ok t' := by
      rw [← _replace_qr_eq_qrMapM]; exact ht'
    obtain ⟨h1, h2⟩ := subAt_qrFill _ _ t t' p s hqm hsub hq hb
    exact ⟨t', by rw [fillCell_qr t c hct]; exact ht', h1, h2, hpres⟩

/-- Claim C7: during one merge pass (the row dispatchable, the image
placeholders of the block well-formed so the fill does not abort), a subtree
of the template block none of whose nodes matches any cell of the data row
(in particular a placeholder whose field name matches no column), and which
does not sit under a replaced image placeholder, is retained completely
unmodified at its position: the fill succeeds and the subtree found at the
same path afterwards is syntactically identical. -/
theorem fillRow_preserves_unmatched :
    ∀ (row : List MergeRow) (tmpl : Elem) (p : List Nat) (s : Elem),
      RowOk row → RowTplOk tmpl row → subAt tmpl p = some s →
      (∀ n ∈ allNodes s, ∀ c ∈ row, ¬ cellMatch n c) →
      (∀ b ∈ pathNodes tmpl p, ∀ c ∈ row,
        ¬ (c.class_type = "qr" ∧ qrMatchP b c.class_name)) →
      ∃ res, fillRow tmpl row = .ok res ∧ subAt res p = some s := by
  intro row
  induction row with
  | nil => intro tmpl p s _ _ hsub _ _; exact ⟨tmpl, rfl, hsub⟩
  | cons c cs ih =>
    intro tmpl p s hok hwf hsub hs hsp
    obtain ⟨t', hfc, hsub', hcorr, hpres⟩ :=
      fillCell_preserves_sub c tmpl p s (hok c (List.mem_cons_self _ _))
        (fun hq => hwf c (List.mem_cons_self _ _) hq) hsub
        (fun n hn => hs n hn c (List.mem_cons_self _ _))
        (fun b hb => hsp b hb c (List.mem_cons_self _ _))
    have hok' : RowOk cs := fun y hy => hok y (List.mem_cons_of_mem _ hy)
    have hwf' : RowTplOk t' cs := fun c' hc' hq =>
      hpres c'.class_name (hwf c' (List.mem_cons_of_mem _ hc') hq)
    have hs' : ∀ n ∈ allNodes s, ∀ c' ∈ cs, ¬ cellMatch n c' := fun n hn c' hc' =>
      hs n hn c' (List.mem_cons_of_mem _ hc')
    have hsp' : ∀ b ∈ pathNodes t' p, ∀ c' ∈ cs,
        ¬ (c'.class_type = "qr" ∧ qrMatchP b c'.class_name) := by
      intro b hb c' hc' hcontra
      obtain ⟨b0, hb0, ht, ha⟩ := hcorr b hb
      exact hsp b0 hb0 c' (List.mem_cons_of_mem _ hc')
        ⟨hcontra.1, (qrMatchP_of_tag_attrs b0 b c'.class_name ht ha).mp hcontra.2⟩
    obtain ⟨res, hres, hsubres⟩ := ih t' p s hok' hwf' hsub' hs' hsp'
    exact ⟨res, by rw [fillRow_cons_ok tmpl t' c cs hfc]; exact hres, hsubres⟩

theorem fillRow_preserves_unmatched_witness :
    RowOk [(⟨"name", "tspan", "Alice"⟩ : MergeRow)] ∧
    RowTplOk exTwoSpanSvg [(⟨"name", "tspan", "Alice"⟩ : MergeRow)] ∧
    subAt exTwoSpanSvg [0, 1]
      = some (Elem.mk "tspan" [("class", "other")] (some "KEEP") .nil) ∧
    (∀ n ∈ allNodes (Elem.mk "tspan" [("class", "other")] (some "KEEP") .nil),
      ∀ c ∈ [(⟨"name", "tspan", "Alice"⟩ : MergeRow)], ¬ cellMatch n c) ∧
    (∀ b ∈ pathNodes exTwoSpanSvg [0, 1],
      ∀ c ∈ [(⟨"name", "tspan", "Alice"⟩ : MergeRow)],
        ¬ (c.class_type = "qr" ∧ qrMatchP b c.class_name)) ∧
    ∃ res, fillRow exTwoSpanSvg [⟨"name", "tspan", "Alice"⟩] = .ok res ∧
      subAt res [0, 1]
        = some (Elem.mk "tspan" [("class", "other")] (some "KEEP") .nil) :=
  ⟨by decide, by decide, by decide, by decide, by decide,
    fillRow_preserves_unmatched [⟨"name", "tspan", "Alice"⟩] exTwoSpanSvg [0, 1]
      (Elem.mk "tspan" [("class", "other")] (some "KEEP") .nil)
      (by decide) (by decide) (by decide) (by decide) (by decide)⟩

end SvgMerge
